import Mathlib

/-!
Verification development for the chessrl repository.

The Rust source is shallowly embedded: the 8×8 board (`[[Option<Piece>; 8]; 8]`)
becomes a list of lists, mutation becomes pure state passing
(`move_piece` returns the success flag together with the updated board),
and the `f32` scores are modelled over `Rat` with the source's literal
constants (every score the claims touch is an exact sum of small integer
multiples of 0.1, so the rational model and the float agree on the
comparisons at issue).  Signed `i8`/`i32` arithmetic is modelled with `Int`.
-/

namespace ChessRL

/-- Piece kinds, from `src/game/piece.rs` (`enum PieceType`). -/
inductive PieceType where
  | king | queen | rook | bishop | knight | pawn
deriving DecidableEq, Repr

/-- Piece colors, from `src/game/piece.rs` (`enum Color`). -/
inductive Color where
  | white | black
deriving DecidableEq, Repr

/-- `Color::opposite` from `src/game/piece.rs`. -/
def Color.opposite : Color → Color
  | .white => .black
  | .black => .white

/-- A piece, from `src/game/piece.rs` (`struct Piece`). -/
structure Piece where
  piece_type : PieceType
  color : Color
deriving DecidableEq, Repr

/-- The board state, from `src/game/board.rs` (`struct Board`): an 8×8 grid of
optional pieces (modelled as a list of rank rows), the selected square, and the
stored turn. -/
structure Board where
  squares : List (List (Option Piece))
  selected_square : Option (Nat × Nat)
  current_turn : Color
deriving DecidableEq, Repr

/-- The Rust `[[Option<Piece>; 8]; 8]` is a fixed 8×8 array; an embedded board
is well formed when its row list has that shape. -/
def Board.WF (b : Board) : Prop :=
  b.squares.length = 8 ∧ ∀ r ∈ b.squares, r.length = 8

instance (b : Board) : Decidable b.WF := by
  unfold Board.WF; infer_instance

/-- A coordinate pair is on the board (Rust `usize` indices into the 8×8 array). -/
def inRange (p : Nat × Nat) : Prop := p.1 < 8 ∧ p.2 < 8

instance (p : Nat × Nat) : Decidable (inRange p) := by
  unfold inRange; infer_instance

/-- Reading `self.squares[p.0][p.1]`; `Board::get_piece` from `src/game/board.rs`. -/
def getSq (b : Board) (p : Nat × Nat) : Option Piece :=
  (b.squares.getD p.1 []).getD p.2 none

/-- Writing `self.squares[p.0][p.1] = v` (pure update). -/
def setSq (b : Board) (p : Nat × Nat) (v : Option Piece) : Board :=
  { b with squares := b.squares.set p.1 ((b.squares.getD p.1 []).set p.2 v) }

/-- Pawn direction: `let direction = if color == Color::White { -1i8 } else { 1i8 }`
in `Board::validate_pawn_move`. -/
def pawnDir (c : Color) : Int := if c = .white then -1 else 1

/-- Pawn start rank: `let start_rank = if color == Color::White { 6 } else { 1 }`
in `Board::validate_pawn_move`. -/
def startRank (c : Color) : Nat := if c = .white then 6 else 1

/-- `Board::validate_pawn_move` from `src/game/board.rs`. -/
def validatePawnMove (b : Board) (f t : Nat × Nat) (c : Color) : Bool :=
  let direction := pawnDir c
  let fr : Int := f.1
  let ff : Int := f.2
  let tr : Int := t.1
  let tf : Int := t.2
  if ff = tf then
    if tr = fr + direction ∧ (getSq b t).isNone then
      true
    else if f.1 = startRank c ∧ tr = fr + 2 * direction ∧ (getSq b t).isNone
        ∧ (getSq b ((fr + direction).toNat, f.2)).isNone then
      true
    else
      false
  else if (tf = ff - 1 ∨ tf = ff + 1) ∧ tr = fr + direction then
    (getSq b t).isSome
  else
    false

/-- The `while (current != to)` path-clearance loop shared by
`Board::validate_rook_move` and `Board::validate_bishop_move`.  The Rust loop
advances `current` by `step` until it reaches `to`, failing on any occupied
intermediate square.  For on-board endpoints the loop runs at most 7 times, so
the fuel of 16 used at the call sites is never exhausted; at fuel 0 we report
whether the loop would have already terminated. -/
def pathLoop (b : Board) (step tgt : Int × Int) : Int × Int → Nat → Bool
  | cur, 0 => decide (cur = tgt)
  | cur, fuel + 1 =>
    if cur = tgt then true
    else if (getSq b (cur.1.toNat, cur.2.toNat)).isSome then false
    else pathLoop b step tgt (cur.1 + step.1, cur.2 + step.2) fuel

/-- `Board::validate_rook_move` from `src/game/board.rs`. -/
def validateRookMove (b : Board) (f t : Nat × Nat) : Bool :=
  if f.1 ≠ t.1 && f.2 ≠ t.2 then
    false
  else
    let rankStep := ((t.1 : Int) - (f.1 : Int)).sign
    let fileStep := ((t.2 : Int) - (f.2 : Int)).sign
    pathLoop b (rankStep, fileStep) ((t.1 : Int), (t.2 : Int))
      ((f.1 : Int) + rankStep, (f.2 : Int) + fileStep) 16

/-- `Board::validate_knight_move` from `src/game/board.rs`. -/
def validateKnightMove (f t : Nat × Nat) : Bool :=
  let rankDiff := ((t.1 : Int) - (f.1 : Int)).natAbs
  let fileDiff := ((t.2 : Int) - (f.2 : Int)).natAbs
  decide ((rankDiff = 2 ∧ fileDiff = 1) ∨ (rankDiff = 1 ∧ fileDiff = 2))

/-- `Board::validate_bishop_move` from `src/game/board.rs`. -/
def validateBishopMove (b : Board) (f t : Nat × Nat) : Bool :=
  let rankDiff := ((t.1 : Int) - (f.1 : Int)).natAbs
  let fileDiff := ((t.2 : Int) - (f.2 : Int)).natAbs
  if rankDiff ≠ fileDiff then
    false
  else
    let rankStep := ((t.1 : Int) - (f.1 : Int)).sign
    let fileStep := ((t.2 : Int) - (f.2 : Int)).sign
    pathLoop b (rankStep, fileStep) ((t.1 : Int), (t.2 : Int))
      ((f.1 : Int) + rankStep, (f.2 : Int) + fileStep) 16

/-- `Board::validate_queen_move` from `src/game/board.rs`. -/
def validateQueenMove (b : Board) (f t : Nat × Nat) : Bool :=
  validateRookMove b f t || validateBishopMove b f t

/-- `Board::validate_king_move` from `src/game/board.rs`. -/
def validateKingMove (f t : Nat × Nat) : Bool :=
  let rankDiff := ((t.1 : Int) - (f.1 : Int)).natAbs
  let fileDiff := ((t.2 : Int) - (f.2 : Int)).natAbs
  decide (rankDiff ≤ 1 ∧ fileDiff ≤ 1)

/-- The per-piece-type dispatch (`match piece.piece_type`) inside
`Board::move_piece`. -/
def pieceRuleValid (b : Board) (f t : Nat × Nat) (p : Piece) : Bool :=
  match p.piece_type with
  | .pawn => validatePawnMove b f t p.color
  | .rook => validateRookMove b f t
  | .knight => validateKnightMove f t
  | .bishop => validateBishopMove b f t
  | .queen => validateQueenMove b f t
  | .king => validateKingMove f t

/-- The destination-occupancy test of `Board::move_piece`: true when `t`
holds a piece of the mover's color. -/
def destSameColor (b : Board) (t : Nat × Nat) (c : Color) : Bool :=
  match getSq b t with
  | some destPiece => destPiece.color == c
  | none => false

/-- `Board::move_piece` from `src/game/board.rs`, returning the success flag
together with the (possibly updated) board.  Each early `return false` of the
Rust code returns the untouched board here. -/
def movePiece (b : Board) (f t : Nat × Nat) : Bool × Board :=
  if f = t then (false, b)
  else
    match getSq b f with
    | none => (false, b)
    | some piece =>
      if destSameColor b t piece.color then
        (false, b)
      else if pieceRuleValid b f t piece then
        (true, setSq (setSq b f none) t (some piece))
      else
        (false, b)

/-- The back-rank piece order from `Board::initialize_pieces`. -/
def backRankPieces : List PieceType :=
  [.rook, .knight, .bishop, .queen, .king, .bishop, .knight, .rook]

/-- `Board::new` from `src/game/board.rs`: black's back rank on row 0, black
pawns on row 1, white pawns on row 6, white's back rank on row 7. -/
def startBoard : Board :=
  { squares :=
      [ backRankPieces.map (fun pt => some ⟨pt, .black⟩)
      , List.replicate 8 (some ⟨.pawn, .black⟩)
      , List.replicate 8 none
      , List.replicate 8 none
      , List.replicate 8 none
      , List.replicate 8 none
      , List.replicate 8 (some ⟨.pawn, .white⟩)
      , backRankPieces.map (fun pt => some ⟨pt, .white⟩) ]
  , selected_square := none
  , current_turn := .white }

/-- All 64 squares in the rank-major order of the `for rank in 0..8 { for file
in 0..8 }` loops used throughout `src/engine/rl.rs`. -/
def allSquares : List (Nat × Nat) :=
  (List.range 8).flatMap (fun r => (List.range 8).map (fun f => (r, f)))

/-- A candidate move, `((usize, usize), (usize, usize))` in `src/engine/rl.rs`. -/
abbrev Move := (Nat × Nat) × (Nat × Nat)

/-- The fixed piece values inserted into `piece_values` by `RLEngine::new`. -/
def pieceValue : PieceType → Int
  | .pawn => 100
  | .knight => 320
  | .bishop => 330
  | .rook => 500
  | .queen => 900
  | .king => 20000

/-- `RLEngine::get_piece_moves`: every target square (in loop order) for which
`move_piece` succeeds on a cloned board. -/
def getPieceMoves (b : Board) (pos : Nat × Nat) : List (Nat × Nat) :=
  allSquares.filter (fun tq => (movePiece b pos tq).1)

/-- `RLEngine::find_king`: the first square (rank-major) holding a king of the
given color. -/
def findKing (b : Board) (c : Color) : Option (Nat × Nat) :=
  allSquares.find? (fun pos =>
    match getSq b pos with
    | some p => p.piece_type == PieceType.king && p.color == c
    | none => false)

/-- `struct BoardAnalysis` from `src/engine/rl.rs`.  The `[[bool; 8]; 8]`
controlled-squares array is modelled extensionally as its membership function;
the `HashMap` mobility map as the association list produced in loop order (its
keys, the occupied squares, are distinct, and the code only reads it through
`get`, order-independent iteration, and `values()` sums). -/
structure BoardAnalysis where
  controlledSquares : Nat × Nat → Bool
  pieceMobility : List ((Nat × Nat) × List (Nat × Nat))
  threats : List ((Nat × Nat) × (Nat × Nat))
  kingSafety : Rat
  materialBalance : Int
  centerControl : Rat

/-- `RLEngine::evaluate_king_safety`.  The Rust function receives the whole
`BoardAnalysis` but reads only its threat list, which is passed here directly.
Both offset loops run over `-1..=1`, so the 3×3 block *including the king's
own square* is scanned; each in-range square holding a piece of the reference
color adds 1, and each recorded threat whose target is the king square
subtracts 2. -/
def evaluateKingSafety (b : Board) (kingPos : Nat × Nat) (c : Color)
    (threats : List ((Nat × Nat) × (Nat × Nat))) : Rat :=
  let offsets : List (Int × Int) :=
    (List.range 3).flatMap (fun i => (List.range 3).map (fun j => ((i : Int) - 1, (j : Int) - 1)))
  let protectors : Nat := offsets.countP (fun off =>
    let rank := (kingPos.1 : Int) + off.1
    let file := (kingPos.2 : Int) + off.2
    if 0 ≤ rank ∧ rank < 8 ∧ 0 ≤ file ∧ file < 8 then
      match getSq b (rank.toNat, file.toNat) with
      | some p => p.color == c
      | none => false
    else false)
  let threatHits : Nat := threats.countP (fun th => th.2 == kingPos)
  (protectors : Rat) - 2 * (threatHits : Rat)

/-- `RLEngine::evaluate_center_control`: one point per controlled square among
the four central squares, scanned in the loop order `rank in 3..=4`,
`file in 3..=4`. -/
def evaluateCenterControl (controlled : Nat × Nat → Bool) : Rat :=
  (([((3 : Nat), (3 : Nat)), (3, 4), (4, 3), (4, 4)].countP
      (fun q => controlled q)) : Rat)

/-- `RLEngine::analyze_board` from `src/engine/rl.rs`: mobility for every
occupied square (of either color), the union of all reachable destinations as
the controlled set, enemy-move-onto-friendly-piece pairs as threats, signed
material balance, king safety (computed after the threat list is complete),
and center control. -/
def analyzeBoard (b : Board) (c : Color) : BoardAnalysis :=
  let mobility := allSquares.filterMap (fun pos =>
    match getSq b pos with
    | some _ => some (pos, getPieceMoves b pos)
    | none => none)
  let controlled : Nat × Nat → Bool := fun q => mobility.any (fun pm => pm.2.contains q)
  let threats := mobility.flatMap (fun pm =>
    match getSq b pm.1 with
    | some p =>
      if p.color ≠ c then
        pm.2.filterMap (fun tq =>
          match getSq b tq with
          | some target => if target.color = c then some (pm.1, tq) else none
          | none => none)
      else []
    | none => [])
  let material := (allSquares.map (fun pos =>
    match getSq b pos with
    | some p => if p.color = c then pieceValue p.piece_type else -(pieceValue p.piece_type)
    | none => 0)).sum
  let ks := match findKing b c with
    | some kp => evaluateKingSafety b kp c threats
    | none => 0
  { controlledSquares := controlled
  , pieceMobility := mobility
  , threats := threats
  , kingSafety := ks
  , materialBalance := material
  , centerControl := evaluateCenterControl controlled }

/-- `RLEngine::is_king_threatened`: the king's square is in the controlled set
of the opponent-perspective analysis of the same position. -/
def isKingThreatened (b : Board) (c : Color) : Bool :=
  match findKing b c with
  | some kp => (analyzeBoard b c.opposite).controlledSquares kp
  | none => false

/-- `RLEngine::evaluate_move_priority` from `src/engine/rl.rs`: captured piece
value, plus 50 when the *source* square is the target of a recorded threat,
plus 10 for a central destination. -/
def evaluateMovePriority (b : Board) (f t : Nat × Nat) (analysis : BoardAnalysis) : Rat :=
  let capture : Rat :=
    match getSq b t with
    | some target => (pieceValue target.piece_type : Rat)
    | none => 0
  let escape : Rat := if analysis.threats.any (fun th => th.2 == f) then 50 else 0
  let central : Rat := if 3 ≤ t.1 ∧ t.1 ≤ 4 ∧ 3 ≤ t.2 ∧ t.2 ≤ 4 then 10 else 0
  capture + escape + central

/-- `MAX_OPPONENT_MOVES` from `src/engine/rl.rs`. -/
def MAX_OPPONENT_MOVES : Nat := 150

/-- The scored candidate list built by the loops of
`RLEngine::generate_ranked_moves`, before sorting and truncation: every mobile
destination of every friendly piece that applies successfully and does not
leave the mover's own king threatened, paired with its priority score. -/
def rankedCandidates (b : Board) (c : Color) : List (Move × Rat) :=
  let analysis := analyzeBoard b c
  allSquares.flatMap (fun f =>
    match getSq b f with
    | some piece =>
      if piece.color = c then
        match analysis.pieceMobility.lookup f with
        | some possibleMoves =>
          possibleMoves.filterMap (fun t =>
            let r := movePiece b f t
            if r.1 then
              if isKingThreatened r.2 c then none
              else some ((f, t), evaluateMovePriority b f t analysis)
            else none)
        | none => []
      else []
    | none => [])

/-- `RLEngine::generate_ranked_moves` from `src/engine/rl.rs`: the candidates,
stably sorted descending by score (`sort_by(|a, b| b.2.partial_cmp(&a.2))`),
truncated to `MAX_OPPONENT_MOVES`, with the scores dropped. -/
def generateRankedMoves (b : Board) (c : Color) : List Move :=
  (((rankedCandidates b c).mergeSort (fun x y => decide (y.2 ≤ x.2))).take
      MAX_OPPONENT_MOVES).map (fun x => x.1)

/-- The deterministic part of `RLEngine::evaluate_position` from
`src/engine/rl.rs`: material, own and opponent king safety, total mobility,
threat penalty, and center control, with the source's weights.  The final
`rng.gen_range(-0.2..0.2)` noise line is the only part omitted here; it is
reinstated as an oracle term in `evaluatePosition` below. -/
def evaluatePositionDet (b : Board) (c : Color) : Rat :=
  let analysis := analyzeBoard b c
  let opponentAnalysis := analyzeBoard b c.opposite
  let score : Rat := (analysis.materialBalance : Rat)
  let score := score + analysis.kingSafety * 3
  let score := score - opponentAnalysis.kingSafety * (5 / 2)
  let score := score
    + ((((analysis.pieceMobility.map (fun pm => pm.2.length)).sum : Nat) : Rat)) * (1 / 10)
  let score := score - (analysis.threats.length : Rat) * 2
  let score := score + analysis.centerControl * (3 / 2)
  score

/-- `MAX_PLIES` from `src/engine/rl.rs` (also `simulation_depth` in
`RLEngine::new`). -/
def MAX_PLIES : Nat := 10

/-- `struct MCTSNode` from `src/engine/rl.rs`: board snapshot, visit count,
cumulative value, expanded children with their moves, the queue of unexplored
ranked moves, and the color to move. -/
inductive MCTSNode where
  | mk (board : Board) (visits : Nat) (total_value : Rat)
      (children : List (Move × MCTSNode))
      (unexplored_moves : List Move)
      (current_player : Color)

/-- The `board` field of an `MCTSNode`. -/
def MCTSNode.board : MCTSNode → Board
  | .mk b _ _ _ _ _ => b

/-- The `visits` field of an `MCTSNode`. -/
def MCTSNode.visits : MCTSNode → Nat
  | .mk _ v _ _ _ _ => v

/-- The `total_value` field of an `MCTSNode`. -/
def MCTSNode.total_value : MCTSNode → Rat
  | .mk _ _ t _ _ _ => t

/-- The `children` field of an `MCTSNode`. -/
def MCTSNode.children : MCTSNode → List (Move × MCTSNode)
  | .mk _ _ _ c _ _ => c

/-- The `unexplored_moves` field of an `MCTSNode`. -/
def MCTSNode.unexplored_moves : MCTSNode → List Move
  | .mk _ _ _ _ u _ => u

/-- The `current_player` field of an `MCTSNode`. -/
def MCTSNode.current_player : MCTSNode → Color
  | .mk _ _ _ _ _ p => p

instance : Inhabited MCTSNode :=
  ⟨.mk ⟨[], none, .white⟩ 0 0 [] [] .white⟩

/-- Oracle for everything the search draws from outside sources: the
`thread_rng().gen_range` index choices in `mcts_iteration` and `simulate`
(reduced modulo the respective list lengths, as `gen_range(0..len)` always
yields an in-range index), the evaluator's `gen_range(-0.2..0.2)` noise term,
and the `max_by` UCT child selection, whose `f32` score (with `ln` and `sqrt`)
is modelled as an arbitrary choice of child index: every theorem below that
quantifies over a `Scheduler` therefore covers every concrete selection the
floating-point UCT comparison could make. -/
structure Scheduler where
  pickUnexplored : List Move → Nat
  pickChild : List (Move × MCTSNode) → Nat
  rolloutPick : List Move → Nat
  noise : Board → Color → Rat

/-- `RLEngine::evaluate_position`: the deterministic score plus the oracle's
noise term. -/
def evaluatePosition (sch : Scheduler) (b : Board) (c : Color) : Rat :=
  evaluatePositionDet b c + sch.noise b c

/-- `MCTSNode::new` from `src/engine/rl.rs`: zero visits and value, no
children, and the full ranked-move list as the unexplored queue. -/
def MCTSNode.new (b : Board) (c : Color) : MCTSNode :=
  .mk b 0 0 [] (generateRankedMoves b c) c

/-- `RLEngine::simulate` from `src/engine/rl.rs`: while ply budget remains,
draw a uniformly random move among the top `min(len, MAX_OPPONENT_MOVES)`
ranked moves, apply it, and recurse with the sign flipped; evaluate the
position when the budget is exhausted, no move exists, or the move fails to
apply (`is_terminal` is constantly false in the source and is dropped).  The
`MCTSNode::new` child built by the source is read back only for its board and
player, which are passed directly. -/
def simulate (sch : Scheduler) (board : Board) (player : Color) : Nat → Rat
  | 0 => evaluatePosition sch board player
  | depth + 1 =>
    let moves := generateRankedMoves board player
    if moves = [] then evaluatePosition sch board player
    else
      let numMoves := min moves.length MAX_OPPONENT_MOVES
      let i := sch.rolloutPick moves % numMoves
      let mv := moves.getD i ((0, 0), (0, 0))
      let r := movePiece board mv.1 mv.2
      if r.1 then -(simulate sch r.2 player.opposite depth)
      else evaluatePosition sch board player

/-- Removing an in-range index strictly shrinks a list's `sizeOf`. -/
theorem sizeOf_eraseIdx_lt {α : Type} [SizeOf α] :
    ∀ (l : List α) (i : Nat), i < l.length → sizeOf (l.eraseIdx i) < sizeOf l
  | [], i, h => by simp at h
  | a :: l, 0, _ => by
    simp only [List.eraseIdx, List.cons.sizeOf_spec]
    omega
  | a :: l, i + 1, h => by
    simp only [List.eraseIdx, List.cons.sizeOf_spec]
    have := sizeOf_eraseIdx_lt l i (by simpa using h)
    omega

/-- An in-range `getD` is a member of the list. -/
theorem getD_mem {α : Type} (l : List α) (i : Nat) (d : α) (h : i < l.length) :
    l.getD i d ∈ l := by
  rw [List.getD_eq_getElem l d h]
  exact List.getElem_mem h

/-- The `sizeOf` of a node in terms of its fields. -/
theorem MCTSNode.sizeOf_eq (n : MCTSNode) :
    sizeOf n = 1 + sizeOf n.board + sizeOf n.visits + sizeOf n.total_value
      + sizeOf n.children + sizeOf n.unexplored_moves + sizeOf n.current_player := by
  cases n
  simp [MCTSNode.board, MCTSNode.visits, MCTSNode.total_value, MCTSNode.children,
    MCTSNode.unexplored_moves, MCTSNode.current_player]

/-- `RLEngine::mcts_iteration` from `src/engine/rl.rs`, with the board
mutation made explicit: the function returns the updated node together with
the backpropagated value.  Branches, in source order: (1) if the node has been
visited and still has unexplored moves, remove a random one; if it applies,
attach the new child (visits 1, value from the sign-flipped rollout), bump the
node's own counters by that same value and return it, and if it does not
apply, retry on the node with the move already removed; (2) if the node has no
children, evaluate the position directly; (3) otherwise descend into the
UCT-chosen child (oracle `pickChild`) and backpropagate its value negated. -/
def mctsIteration (sch : Scheduler) (node : MCTSNode) : MCTSNode × Rat :=
  if 0 < node.visits ∧ node.unexplored_moves ≠ [] then
    let i := sch.pickUnexplored node.unexplored_moves % node.unexplored_moves.length
    let nextMove := node.unexplored_moves.getD i ((0, 0), (0, 0))
    let rest := node.unexplored_moves.eraseIdx i
    let r := movePiece node.board nextMove.1 nextMove.2
    if r.1 then
      let value := -(simulate sch r.2 node.current_player.opposite MAX_PLIES)
      let child : MCTSNode := .mk r.2 1 value []
        (generateRankedMoves r.2 node.current_player.opposite) node.current_player.opposite
      (.mk node.board (node.visits + 1) (node.total_value + value)
        (node.children ++ [(nextMove, child)]) rest node.current_player, value)
    else
      mctsIteration sch
        (.mk node.board node.visits node.total_value node.children rest node.current_player)
  else if node.children.isEmpty then
    let value := evaluatePosition sch node.board node.current_player
    (.mk node.board (node.visits + 1) (node.total_value + value)
      node.children node.unexplored_moves node.current_player, value)
  else
    let j := sch.pickChild node.children % node.children.length
    let picked := node.children.getD j default
    let res := mctsIteration sch picked.2
    let value := -res.2
    (.mk node.board (node.visits + 1) (node.total_value + value)
      (node.children.set j (picked.1, res.1)) node.unexplored_moves node.current_player, value)
termination_by sizeOf node
decreasing_by
  · rename_i h
    simp only [MCTSNode.mk.sizeOf_spec, MCTSNode.sizeOf_eq node]
    have hne : node.unexplored_moves ≠ [] := h.2
    have hlen : sch.pickUnexplored node.unexplored_moves % node.unexplored_moves.length
        < node.unexplored_moves.length :=
      Nat.mod_lt _ (List.length_pos.mpr hne)
    have := sizeOf_eraseIdx_lt node.unexplored_moves
      (sch.pickUnexplored node.unexplored_moves % node.unexplored_moves.length) hlen
    omega
  · rename_i _h1 h2
    have hne : node.children ≠ [] := by
      intro hc
      simp [hc] at h2
    have hlen : sch.pickChild node.children % node.children.length < node.children.length :=
      Nat.mod_lt _ (List.length_pos.mpr hne)
    have hmem : node.children.getD (sch.pickChild node.children % node.children.length) default
        ∈ node.children := getD_mem _ _ _ hlen
    have hsz : sizeOf (node.children.getD
        (sch.pickChild node.children % node.children.length) default) <
        sizeOf node.children := List.sizeOf_lt_of_mem hmem
    have hp : sizeOf (node.children.getD
        (sch.pickChild node.children % node.children.length) default).2 <
        sizeOf (node.children.getD
          (sch.pickChild node.children % node.children.length) default) := by
      rcases node.children.getD (sch.pickChild node.children % node.children.length) default
        with ⟨mv, c⟩
      simp only [Prod.mk.sizeOf_spec]
      omega
    have := MCTSNode.sizeOf_eq node
    omega

/-- The timed `while start_time.elapsed() < timeout` loop of
`RLEngine::get_best_move`, with the wall clock abstracted as the number of
iterations the budget allowed: run `mcts_iteration` on the root that many
times.  (The statistics refresh every 50 iterations only redraws the UI and
does not touch the tree.) -/
def iterateMCTS (sch : Scheduler) : Nat → MCTSNode → MCTSNode
  | 0, root => root
  | n + 1, root => iterateMCTS sch n (mctsIteration sch root).1

/-- The final block of `RLEngine::get_best_move`: pick the root child with the
highest visit count (`max_by` keeps the *last* maximum on ties), and report it
with its confidence, the chosen child's visit count divided by the total visit
count of all root children.  Returns `none` when the root has no children. -/
def bestMoveAndConfidence (root : MCTSNode) : Option (Move × Rat) :=
  match root.children with
  | [] => none
  | x :: xs =>
    let best := xs.foldl (fun acc y => if acc.2.visits ≤ y.2.visits then y else acc) x
    let totalVisits : Nat := (root.children.map (fun ch => ch.2.visits)).sum
    some (best.1, (best.2.visits : Rat) / (totalVisits : Rat))

/-- `RLEngine::get_best_move` from `src/engine/rl.rs`: build the root
(`MCTSNode::new`), run iterations for the time budget (`iters` of them), and
extract the robust child with its confidence. -/
def getBestMove (sch : Scheduler) (iters : Nat) (b : Board) (c : Color) :
    Option (Move × Rat) :=
  bestMoveAndConfidence (iterateMCTS sch iters (MCTSNode.new b c))

/-! ## Basic facts about `move_piece` -/

/-- Every failing branch of `move_piece` returns the input board untouched. -/
theorem movePiece_false_eq (b : Board) (f t : Nat × Nat) :
    (movePiece b f t).1 = false → movePiece b f t = (false, b) := by
  unfold movePiece
  split
  · intro _; rfl
  · split
    · intro _; rfl
    · split
      · intro _; rfl
      · split
        · intro h; simp at h
        · intro _; rfl

/-- A successful `move_piece` call rewrote exactly the two squares, via the
two assignments `squares[from] = None; squares[to] = Some(piece)`. -/
theorem movePiece_true_eq (b : Board) (f t : Nat × Nat) (p : Piece)
    (hp : getSq b f = some p) (hs : (movePiece b f t).1 = true) :
    (movePiece b f t).2 = setSq (setSq b f none) t (some p) ∧ f ≠ t := by
  unfold movePiece at hs ⊢
  by_cases hft : f = t
  · simp [hft] at hs
  · rw [if_neg hft, hp] at hs ⊢
    dsimp only at hs ⊢
    split_ifs at hs with h1 h2
    · rw [if_neg h1, if_pos h2]
      exact ⟨rfl, hft⟩

/-- Reading a list updated by `set` at an in-range index. -/
theorem list_getD_set {α : Type} (l : List α) (i j : Nat) (a d : α) (hi : i < l.length) :
    (l.set i a).getD j d = if j = i then a else l.getD j d := by
  by_cases h : j = i
  · subst h
    rw [if_pos rfl, List.getD_eq_getElem?_getD, List.getElem?_set_self hi, Option.getD_some]
  · rw [if_neg h, List.getD_eq_getElem?_getD, List.getElem?_set_ne (fun hc => h hc.symm),
      ← List.getD_eq_getElem?_getD]

/-- A square write changes only the written square. -/
theorem getSq_setSq (b : Board) (q : Nat × Nat) (v : Option Piece) (p : Nat × Nat)
    (hwf : b.WF) (hq : inRange q) :
    getSq (setSq b q v) p = if p = q then v else getSq b p := by
  obtain ⟨hlen, hrows⟩ := hwf
  obtain ⟨hq1, hq2⟩ := hq
  have hrowlen : (b.squares.getD q.1 []).length = 8 :=
    hrows _ (getD_mem b.squares q.1 [] (by omega))
  unfold getSq setSq
  dsimp only
  rw [list_getD_set _ _ _ _ _ (by omega)]
  by_cases h1 : p.1 = q.1
  · rw [if_pos h1, list_getD_set _ _ _ _ _ (by omega)]
    by_cases h2 : p.2 = q.2
    · rw [if_pos h2, if_pos (Prod.ext h1 h2)]
    · rw [if_neg h2, if_neg (fun hc => h2 (by rw [hc])), h1]
  · rw [if_neg h1, if_neg (fun hc => h1 (by rw [hc]))]

/-- A square write preserves the 8×8 board shape. -/
theorem setSq_WF (b : Board) (q : Nat × Nat) (v : Option Piece) (hwf : b.WF)
    (hq : inRange q) : (setSq b q v).WF := by
  obtain ⟨hlen, hrows⟩ := hwf
  obtain ⟨hq1, hq2⟩ := hq
  constructor
  · simp [setSq, hlen]
  · intro r hr
    rcases List.mem_or_eq_of_mem_set hr with h | h
    · exact hrows r h
    · rw [h, List.length_set]
      exact hrows _ (getD_mem b.squares q.1 [] (by omega))

/-- `get_piece` depends only on the grid, not on the selection or turn fields. -/
theorem getSq_congr {b b' : Board} (h : b.squares = b'.squares) (p : Nat × Nat) :
    getSq b p = getSq b' p := by
  simp [getSq, h]

/-- The path-clearance loop depends only on the grid. -/
theorem pathLoop_congr {b b' : Board} (h : b.squares = b'.squares) (s tg : Int × Int) :
    ∀ fuel cur, pathLoop b s tg cur fuel = pathLoop b' s tg cur fuel := by
  intro fuel
  induction fuel with
  | zero => intro cur; rfl
  | succ n ih =>
    intro cur
    unfold pathLoop
    rw [getSq_congr h, ih]

/-- The per-piece movement rules depend only on the grid. -/
theorem pieceRuleValid_congr {b b' : Board} (h : b.squares = b'.squares)
    (f t : Nat × Nat) (p : Piece) :
    pieceRuleValid b f t p = pieceRuleValid b' f t p := by
  unfold pieceRuleValid validatePawnMove validateRookMove validateBishopMove validateQueenMove
  cases p.piece_type <;>
    simp only [getSq_congr h, pathLoop_congr h, validateRookMove, validateBishopMove]

/-- `move_piece` neither reads nor writes the selection or turn fields: on the
same grid it succeeds or fails identically, updates the same squares, and
passes the other two fields through. -/
theorem movePiece_turn_indep (sq : List (List (Option Piece)))
    (sel sel' : Option (Nat × Nat)) (ct ct' : Color) (f t : Nat × Nat) :
    movePiece ⟨sq, sel', ct'⟩ f t
      = ((movePiece ⟨sq, sel, ct⟩ f t).1,
         { (movePiece ⟨sq, sel, ct⟩ f t).2 with
            selected_square := sel', current_turn := ct' }) := by
  have hsq : (⟨sq, sel', ct'⟩ : Board).squares = (⟨sq, sel, ct⟩ : Board).squares := rfl
  unfold movePiece
  rw [getSq_congr hsq f]
  by_cases hft : f = t
  · simp [hft]
  · simp only [if_neg hft]
    cases hgf : getSq (⟨sq, sel, ct⟩ : Board) f with
    | none => rfl
    | some piece =>
      dsimp only
      have hd : destSameColor (⟨sq, sel', ct'⟩ : Board) t piece.color
          = destSameColor (⟨sq, sel, ct⟩ : Board) t piece.color := by
        unfold destSameColor
        rw [getSq_congr hsq t]
      rw [hd, pieceRuleValid_congr hsq f t piece]
      by_cases h1 : destSameColor (⟨sq, sel, ct⟩ : Board) t piece.color
      · simp [h1]
      · by_cases h2 : pieceRuleValid (⟨sq, sel, ct⟩ : Board) f t piece <;>
          simp [h1, h2, setSq]

/-! ## Claims C1, C2, C10 -/

/-- C1: for in-range squares, `move_piece` returns false with the board
completely untouched whenever `from = to`, `from` is empty, the destination
holds a same-colored piece, or the piece-type geometry rule rejects the move;
moreover any false return leaves the board exactly as it was (never partially
modified). -/
theorem claim_C1_applyMove_failure (b : Board) (f t : Nat × Nat)
    (_hf : inRange f) (_ht : inRange t) :
    ((f = t ∨ getSq b f = none
        ∨ (∃ p q, getSq b f = some p ∧ getSq b t = some q ∧ q.color = p.color)
        ∨ (∃ p, getSq b f = some p ∧ destSameColor b t p.color = false
            ∧ pieceRuleValid b f t p = false))
      → movePiece b f t = (false, b))
    ∧ ((movePiece b f t).1 = false → (movePiece b f t).2 = b) := by
  constructor
  · intro h
    unfold movePiece
    by_cases hft : f = t
    · simp [hft]
    · simp only [if_neg hft]
      rcases h with h | h | ⟨p, q, hp, hq, hc⟩ | ⟨p, hp, hd, hv⟩
      · exact absurd h hft
      · simp [h]
      · simp [hp, destSameColor, hq, hc]
      · simp [hp, hd, hv]
  · intro h
    rw [movePiece_false_eq b f t h]

/-- Witness for C1 at a concrete input: moving the black rook on a1 onto the
black pawn on b2 in the start position fails and leaves the board unchanged. -/
theorem claim_C1_witness :
    inRange ((0 : Nat), (0 : Nat)) ∧ inRange ((1 : Nat), (1 : Nat))
    ∧ movePiece startBoard (0, 0) (1, 1) = (false, startBoard)
    ∧ ((movePiece startBoard (0, 0) (1, 1)).1 = false
        → (movePiece startBoard (0, 0) (1, 1)).2 = startBoard) :=
  ⟨by decide, by decide,
    (claim_C1_applyMove_failure startBoard (0, 0) (1, 1) (by decide) (by decide)).1
      (Or.inr (Or.inr (Or.inl ⟨⟨.rook, .black⟩, ⟨.pawn, .black⟩, by decide, by decide, rfl⟩))),
    (claim_C1_applyMove_failure startBoard (0, 0) (1, 1) (by decide) (by decide)).2⟩

/-- The pawn rule as §4.1 of the spec states it: a single forward step onto an
empty square; a double forward step from the color's start rank with the
intermediate and destination squares empty; or a one-step forward-diagonal
capture onto a square occupied by an enemy piece. -/
def pawnMoveSpec (b : Board) (f t : Nat × Nat) (c : Color) : Prop :=
  (t.2 = f.2 ∧ (t.1 : Int) = (f.1 : Int) + pawnDir c ∧ getSq b t = none)
  ∨ (t.2 = f.2 ∧ f.1 = startRank c ∧ (t.1 : Int) = (f.1 : Int) + 2 * pawnDir c
      ∧ getSq b t = none ∧ getSq b (((f.1 : Int) + pawnDir c).toNat, f.2) = none)
  ∨ (((t.2 : Int) = (f.2 : Int) - 1 ∨ (t.2 : Int) = (f.2 : Int) + 1)
      ∧ (t.1 : Int) = (f.1 : Int) + pawnDir c
      ∧ ∃ q, getSq b t = some q ∧ q.color ≠ c)

/-- C2: once the basic checks pass (occupied source pawn, distinct squares,
destination not same-colored), `move_piece` accepts a pawn move exactly when
it is one of the three spec shapes — single step, guarded double step, or
diagonal capture onto an enemy piece — and nothing else (no en passant). -/
theorem claim_C2_pawn_rule (b : Board) (f t : Nat × Nat) (c : Color)
    (_hf : inRange f) (_ht : inRange t)
    (hp : getSq b f = some ⟨.pawn, c⟩)
    (hne : f ≠ t)
    (hdest : destSameColor b t c = false) :
    ((movePiece b f t).1 = true ↔ pawnMoveSpec b f t c) := by
  have hmp : (movePiece b f t).1 = validatePawnMove b f t c := by
    unfold movePiece
    rw [if_neg hne, hp]
    simp only [hdest]
    by_cases hv : validatePawnMove b f t c <;> simp [pieceRuleValid, hv]
  rw [hmp]
  unfold validatePawnMove pawnMoveSpec
  by_cases hff : ((f.2 : Int)) = (t.2 : Int)
  · have hnat : t.2 = f.2 := by omega
    simp only [if_pos hff]
    constructor
    · intro h
      split_ifs at h with h1 h2
      · left
        exact ⟨hnat, h1.1, by simpa [Option.isNone_iff_eq_none] using h1.2⟩
      · right; left
        refine ⟨hnat, h2.1, h2.2.1, ?_, ?_⟩
        · simpa [Option.isNone_iff_eq_none] using h2.2.2.1
        · simpa [Option.isNone_iff_eq_none] using h2.2.2.2
    · rintro (⟨h2f, hr, hnone⟩ | ⟨h2f, hsr, hr, hnone, hmid⟩ | ⟨hd, _, _⟩)
      · split_ifs with h1 h2
        · rfl
        · rfl
        · exact absurd ⟨hr, by simp [hnone]⟩ h1
      · split_ifs with h1 h2
        · rfl
        · rfl
        · exact absurd ⟨hsr, hr, by simp [hnone], by simp [hmid]⟩ h2
      · omega
  · simp only [if_neg hff]
    constructor
    · intro h
      split_ifs at h with h1
      · right; right
        refine ⟨?_, h1.2, ?_⟩
        · rcases h1.1 with h' | h'
          · left; omega
          · right; omega
        · rcases Option.isSome_iff_exists.mp h with ⟨q, hq⟩
          refine ⟨q, hq, ?_⟩
          intro hqc
          rw [destSameColor, hq] at hdest
          simp [hqc] at hdest
    · rintro (⟨h2f, _, _⟩ | ⟨h2f, _⟩ | ⟨hd, hr, q, hq, _⟩)
      · omega
      · omega
      · split_ifs with h1
        · simp [hq]
        · exact absurd ⟨by omega, hr⟩ h1

/-- Witness for C2 at a concrete input: e2–e4 from the start position is
accepted and matches the double-step spec shape. -/
theorem claim_C2_witness :
    inRange ((6 : Nat), (4 : Nat)) ∧ inRange ((4 : Nat), (4 : Nat))
    ∧ getSq startBoard (6, 4) = some ⟨.pawn, .white⟩
    ∧ ((6 : Nat), (4 : Nat)) ≠ ((4 : Nat), (4 : Nat))
    ∧ destSameColor startBoard (4, 4) .white = false
    ∧ ((movePiece startBoard (6, 4) (4, 4)).1 = true
        ↔ pawnMoveSpec startBoard (6, 4) (4, 4) .white) :=
  ⟨by decide, by decide, by decide, by decide, by decide,
    claim_C2_pawn_rule startBoard (6, 4) (4, 4) .white (by decide) (by decide)
      (by decide) (by decide) (by decide)⟩

/-- C10: a successful `move_piece` empties the source square, puts the moved
piece on the destination, and changes nothing else: every other square, the
selection field and the turn field are untouched — and `move_piece` never
reads the turn or selection fields at all, so the same move by either color
succeeds identically regardless of the stored turn. -/
theorem claim_C10_success_frame (b : Board) (f t : Nat × Nat) (hwf : b.WF)
    (hf : inRange f) (ht : inRange t) (p : Piece)
    (hp : getSq b f = some p) (hs : (movePiece b f t).1 = true) :
    getSq (movePiece b f t).2 f = none
    ∧ getSq (movePiece b f t).2 t = some p
    ∧ (∀ q, q ≠ f → q ≠ t → getSq (movePiece b f t).2 q = getSq b q)
    ∧ (movePiece b f t).2.selected_square = b.selected_square
    ∧ (movePiece b f t).2.current_turn = b.current_turn
    ∧ (∀ sel' ct', movePiece ⟨b.squares, sel', ct'⟩ f t
        = ((movePiece b f t).1,
           { (movePiece b f t).2 with
              selected_square := sel', current_turn := ct' })) := by
  obtain ⟨hres, hft⟩ := movePiece_true_eq b f t p hp hs
  have hwf1 : (setSq b f none).WF := setSq_WF b f none hwf hf
  refine ⟨?_, ?_, ?_, ?_, ?_, ?_⟩
  · rw [hres, getSq_setSq _ _ _ _ hwf1 ht, if_neg hft,
      getSq_setSq _ _ _ _ hwf hf, if_pos rfl]
  · rw [hres, getSq_setSq _ _ _ _ hwf1 ht, if_pos rfl]
  · intro q hqf hqt
    rw [hres, getSq_setSq _ _ _ _ hwf1 ht, if_neg hqt,
      getSq_setSq _ _ _ _ hwf hf, if_neg hqf]
  · rw [hres]; rfl
  · rw [hres]; rfl
  · intro sel' ct'
    obtain ⟨sq, sel, ct⟩ := b
    exact movePiece_turn_indep sq sel sel' ct ct' f t

/-! ## Claims C4, C5, C8 -/

/-- A board holding only a white king on e4 (rank 4, file 4). -/
def loneKingBoard : Board :=
  { squares := (List.replicate 8 (List.replicate 8 (none : Option Piece))).set 4
      ((List.replicate 8 (none : Option Piece)).set 4 (some ⟨.king, .white⟩))
  , selected_square := none
  , current_turn := .white }

/-- The king-safety score exactly as claim C4 (and §4.2 of the spec) words it:
+1 for each of the **8 neighboring** squares (board-clamped) occupied by a
friendly piece — the king's own square contributing nothing — and −2 for each
recorded threat whose target is the king square. -/
def kingSafetySpecEight (b : Board) (kingPos : Nat × Nat) (c : Color)
    (threats : List ((Nat × Nat) × (Nat × Nat))) : Rat :=
  let neighborOffsets : List (Int × Int) :=
    [(-1, -1), (-1, 0), (-1, 1), (0, -1), (0, 1), (1, -1), (1, 0), (1, 1)]
  let protectors : Nat := neighborOffsets.countP (fun off =>
    let rank := (kingPos.1 : Int) + off.1
    let file := (kingPos.2 : Int) + off.2
    decide (0 ≤ rank ∧ rank < 8 ∧ 0 ≤ file ∧ file < 8)
      && (getSq b (rank.toNat, file.toNat)).any (fun p => p.color == c))
  (protectors : Rat) - 2 * ((threats.countP (fun th => th.2 == kingPos)) : Rat)

/-- The claim amended to the 3×3 block the code actually scans: the two
offset loops run over `-1..=1` *including* `(0, 0)`, so a friendly piece on
the king's own square (normally the king itself) also contributes +1. -/
def kingSafetySpecNine (b : Board) (kingPos : Nat × Nat) (c : Color)
    (threats : List ((Nat × Nat) × (Nat × Nat))) : Rat :=
  let blockOffsets : List (Int × Int) :=
    [(-1, -1), (-1, 0), (-1, 1), (0, -1), (0, 0), (0, 1), (1, -1), (1, 0), (1, 1)]
  let protectors : Nat := blockOffsets.countP (fun off =>
    let rank := (kingPos.1 : Int) + off.1
    let file := (kingPos.2 : Int) + off.2
    decide (0 ≤ rank ∧ rank < 8 ∧ 0 ≤ file ∧ file < 8)
      && (getSq b (rank.toNat, file.toNat)).any (fun p => p.color == c))
  (protectors : Rat) - 2 * ((threats.countP (fun th => th.2 == kingPos)) : Rat)

set_option maxRecDepth 100000 in
/-- C4 counterexample: for a lone white king on e4 with no threats, the code's
king-safety score is 1 (the king's own square counts), while the claimed
8-neighbor formula yields 0. -/
theorem claim_C4_counterexample :
    evaluateKingSafety loneKingBoard (4, 4) .white
        (analyzeBoard loneKingBoard .white).threats = 1
    ∧ kingSafetySpecEight loneKingBoard (4, 4) .white
        (analyzeBoard loneKingBoard .white).threats = 0
    ∧ ¬ ((1 : Rat) = 0) := by
  with_unfolding_all decide

/-- C4 amended: for every board, king square, color and threat list, the
king-safety score equals +1 per friendly piece in the board-clamped 3×3 block
centered on the king — **including the king's own square** — minus 2 per
recorded threat targeting the king square, with no other contributions. -/
theorem claim_C4_kingSafety_block (b : Board) (kingPos : Nat × Nat) (c : Color)
    (threats : List ((Nat × Nat) × (Nat × Nat))) :
    evaluateKingSafety b kingPos c threats = kingSafetySpecNine b kingPos c threats := by
  unfold evaluateKingSafety kingSafetySpecNine
  have hoff : ((List.range 3).flatMap
      (fun i => (List.range 3).map (fun j => ((i : Int) - 1, (j : Int) - 1))))
      = [((-1 : Int), (-1 : Int)), (-1, 0), (-1, 1), (0, -1), (0, 0), (0, 1),
          (1, -1), (1, 0), (1, 1)] := by
    decide
  rw [hoff]
  dsimp only
  congr 2
  apply List.countP_congr
  intro off _
  by_cases h : (0 ≤ (kingPos.1 : Int) + off.1 ∧ (kingPos.1 : Int) + off.1 < 8
      ∧ 0 ≤ (kingPos.2 : Int) + off.2 ∧ (kingPos.2 : Int) + off.2 < 8)
  · simp only [if_pos h, decide_eq_true h, Bool.true_and]
    cases getSq b (((kingPos.1 : Int) + off.1).toNat, ((kingPos.2 : Int) + off.2).toNat) with
    | none => rfl
    | some p => rfl
  · simp only [if_neg h]
    simp [h]

/-- A board with a black rook on a8 (0,0) threatening a white knight on
a4 (4,0); the knight can retreat to the quiet, non-central square (6,1). -/
def threatEscapeBoard : Board :=
  { squares := ((List.replicate 8 (List.replicate 8 (none : Option Piece))).set 0
      ((List.replicate 8 (none : Option Piece)).set 0 (some ⟨.rook, .black⟩))).set 4
      ((List.replicate 8 (none : Option Piece)).set 0 (some ⟨.knight, .white⟩))
  , selected_square := none
  , current_turn := .white }

/-- The move-priority formula exactly as claim C5 words it: captured piece
value, +50 when the **destination** square is the target end of a recorded
threat, +10 for a central destination. -/
def movePriorityDestThreatSpec (b : Board) (_f t : Nat × Nat)
    (analysis : BoardAnalysis) : Rat :=
  (match getSq b t with
    | some target => (pieceValue target.piece_type : Rat)
    | none => 0)
  + (if ∃ th ∈ analysis.threats, th.2 = t then 50 else 0)
  + (if 3 ≤ t.1 ∧ t.1 ≤ 4 ∧ 3 ≤ t.2 ∧ t.2 ≤ 4 then 10 else 0)

/-- The claim amended to what the code computes: the +50 bonus fires when the
**source** square `from` is the target end of a recorded threat (the moving
piece is itself threatened), not the destination. -/
def movePriorityFromThreatSpec (b : Board) (f t : Nat × Nat)
    (analysis : BoardAnalysis) : Rat :=
  (match getSq b t with
    | some target => (pieceValue target.piece_type : Rat)
    | none => 0)
  + (if ∃ th ∈ analysis.threats, th.2 = f then 50 else 0)
  + (if 3 ≤ t.1 ∧ t.1 ≤ 4 ∧ 3 ≤ t.2 ∧ t.2 ≤ 4 then 10 else 0)

set_option maxRecDepth 100000 in
/-- C5 counterexample: the threatened knight's retreat (4,0) → (6,1) — no
capture, destination not a threat target, not central — scores 50 in the
code (the `from` square is threatened) but 0 under the claim's
destination-threat formula. -/
theorem claim_C5_counterexample :
    evaluateMovePriority threatEscapeBoard (4, 0) (6, 1)
        (analyzeBoard threatEscapeBoard .white) = 50
    ∧ movePriorityDestThreatSpec threatEscapeBoard (4, 0) (6, 1)
        (analyzeBoard threatEscapeBoard .white) = 0
    ∧ ¬ ((50 : Rat) = 0) := by
  with_unfolding_all decide

/-- C5 amended: the ranking priority is the captured piece's value, plus 50
exactly when the **source** square is the target end of a recorded threat
against the mover, plus 10 for a central destination; the surviving moves are
stably sorted descending by this priority and truncated to 150. -/
theorem claim_C5_priority_ordering (b : Board) (c : Color) :
    (∀ f t, evaluateMovePriority b f t (analyzeBoard b c)
        = movePriorityFromThreatSpec b f t (analyzeBoard b c))
    ∧ (generateRankedMoves b c).length ≤ MAX_OPPONENT_MOVES
    ∧ ((rankedCandidates b c).mergeSort (fun x y => decide (y.2 ≤ x.2))).Pairwise
        (fun x y => y.2 ≤ x.2)
    ∧ ((rankedCandidates b c).mergeSort (fun x y => decide (y.2 ≤ x.2))).Perm
        (rankedCandidates b c)
    ∧ generateRankedMoves b c
        = ((((rankedCandidates b c).mergeSort (fun x y => decide (y.2 ≤ x.2))).take
            MAX_OPPONENT_MOVES).map (fun x => x.1)) := by
  refine ⟨?_, ?_, ?_, ?_, rfl⟩
  · intro _f t
    unfold evaluateMovePriority movePriorityFromThreatSpec
    simp only [List.any_eq_true, beq_iff_eq]
  · unfold generateRankedMoves
    simp only [List.length_map, List.length_take]
    omega
  · have hs := @List.sorted_mergeSort (Move × Rat)
      (fun (x y : Move × Rat) => decide (y.2 ≤ x.2))
      (fun (x y z : Move × Rat) hxy hyz => by
        simp only [decide_eq_true_eq] at hxy hyz ⊢
        exact le_trans hyz hxy)
      (fun (x y : Move × Rat) => by
        simp only [Bool.or_eq_true, decide_eq_true_eq]
        exact le_total y.2 x.2)
      (rankedCandidates b c)
    exact hs.imp (fun h => by simpa using h)
  · exact List.mergeSort_perm _ _

/-- The material balance stored by `analyze_board`, as the loop's running sum. -/
theorem analyzeBoard_materialBalance (b : Board) (c : Color) :
    (analyzeBoard b c).materialBalance
      = (allSquares.map (fun pos =>
          match getSq b pos with
          | some p => if p.color = c then pieceValue p.piece_type
              else -(pieceValue p.piece_type)
          | none => 0)).sum := rfl

/-- Summing a pointwise-negated integer map negates the sum. -/
theorem sum_map_neg_of_pointwise {α : Type} (f g : α → Int)
    (h : ∀ x, f x = - g x) :
    ∀ l : List α, (l.map f).sum = -((l.map g).sum) := by
  intro l
  induction l with
  | nil => simp
  | cons x xs ih =>
    simp only [List.map_cons, List.sum_cons, ih, h x]
    ring

set_option maxRecDepth 1000000 in
/-- C8 counterexample: on the standard starting position — where both colors
have identical material and structure — the deterministic component of
`evaluate_position` is 13 for **both** colors: the mobility, center-control
and king-safety terms are computed over the whole board or added with
asymmetric weights, so the score is symmetric rather than antisymmetric, and
`evaluate(start, White) ≠ -evaluate(start, Black)`. -/
theorem claim_C8_counterexample :
    evaluatePositionDet startBoard .white = 13
    ∧ evaluatePositionDet startBoard .black = 13
    ∧ ¬ (evaluatePositionDet startBoard .white
          = -(evaluatePositionDet startBoard .black)) := by
  with_unfolding_all decide

set_option maxRecDepth 1000000 in
/-- C8 amended: only the material-balance component is antisymmetric in the
color (for every position); the remaining deterministic terms are symmetric,
so on the starting position the two deterministic evaluations are *equal*
(not negations of each other). -/
theorem claim_C8_material_antisymmetry :
    (∀ (b : Board) (c : Color),
      (analyzeBoard b c).materialBalance = -((analyzeBoard b c.opposite).materialBalance))
    ∧ evaluatePositionDet startBoard .white = evaluatePositionDet startBoard .black := by
  constructor
  · intro b c
    rw [analyzeBoard_materialBalance, analyzeBoard_materialBalance]
    apply sum_map_neg_of_pointwise
    intro pos
    cases getSq b pos with
    | none => simp
    | some p =>
      cases hc : p.color <;> cases c <;> simp [Color.opposite, hc]
  · have h1 : evaluatePositionDet startBoard .white = 13 := by
      with_unfolding_all decide
    have h2 : evaluatePositionDet startBoard .black = 13 := by
      with_unfolding_all decide
    rw [h1, h2]

/-- Witness for C10 at a concrete input: e2–e4 from the start position
relocates exactly the e-pawn and touches nothing else. -/
theorem claim_C10_witness :
    startBoard.WF ∧ inRange ((6 : Nat), (4 : Nat)) ∧ inRange ((4 : Nat), (4 : Nat))
    ∧ getSq startBoard (6, 4) = some ⟨.pawn, .white⟩
    ∧ (movePiece startBoard (6, 4) (4, 4)).1 = true
    ∧ (getSq (movePiece startBoard (6, 4) (4, 4)).2 (6, 4) = none
        ∧ getSq (movePiece startBoard (6, 4) (4, 4)).2 (4, 4) = some ⟨.pawn, .white⟩
        ∧ (∀ q, q ≠ ((6 : Nat), (4 : Nat)) → q ≠ ((4 : Nat), (4 : Nat))
            → getSq (movePiece startBoard (6, 4) (4, 4)).2 q = getSq startBoard q)
        ∧ (movePiece startBoard (6, 4) (4, 4)).2.selected_square = startBoard.selected_square
        ∧ (movePiece startBoard (6, 4) (4, 4)).2.current_turn = startBoard.current_turn
        ∧ (∀ sel' ct', movePiece ⟨startBoard.squares, sel', ct'⟩ (6, 4) (4, 4)
            = ((movePiece startBoard (6, 4) (4, 4)).1,
               { (movePiece startBoard (6, 4) (4, 4)).2 with
                  selected_square := sel', current_turn := ct' }))) :=
  ⟨by decide, by decide, by decide, by decide, by decide,
    claim_C10_success_frame startBoard (6, 4) (4, 4) (by decide) (by decide) (by decide)
      ⟨.pawn, .white⟩ (by decide) (by decide)⟩

/-! ## Claim C3 -/

/-- C3: every move returned by `generate_ranked_moves` applies successfully
to the board it was generated for, and the resulting position does not leave
the mover's king threatened: whenever the king is found, its square is not in
the controlled-squares set of the opponent-perspective analysis of the
resulting position. -/
theorem claim_C3_no_self_check (b : Board) (c : Color) (m : Move)
    (hm : m ∈ generateRankedMoves b c) :
    (movePiece b m.1 m.2).1 = true
    ∧ isKingThreatened (movePiece b m.1 m.2).2 c = false
    ∧ ∀ kp, findKing (movePiece b m.1 m.2).2 c = some kp
        → (analyzeBoard (movePiece b m.1 m.2).2 c.opposite).controlledSquares kp = false := by
  unfold generateRankedMoves at hm
  obtain ⟨x, hx, hfst⟩ := List.mem_map.mp hm
  have hx1 : x ∈ (rankedCandidates b c).mergeSort (fun x y => decide (y.2 ≤ x.2)) :=
    List.mem_of_mem_take hx
  have hx2 : x ∈ rankedCandidates b c := List.mem_mergeSort.mp hx1
  unfold rankedCandidates at hx2
  obtain ⟨f, _hf, hx3⟩ := List.mem_flatMap.mp hx2
  have hmain : (movePiece b x.1.1 x.1.2).1 = true
      ∧ isKingThreatened (movePiece b x.1.1 x.1.2).2 c = false := by
    cases hgf : getSq b f with
    | none => rw [hgf] at hx3; simp at hx3
    | some piece =>
      rw [hgf] at hx3
      dsimp only at hx3
      by_cases hcol : piece.color = c
      · rw [if_pos hcol] at hx3
        cases hlook : (analyzeBoard b c).pieceMobility.lookup f with
        | none => rw [hlook] at hx3; simp at hx3
        | some possibleMoves =>
          rw [hlook] at hx3
          obtain ⟨t, _ht, heq⟩ := List.mem_filterMap.mp hx3
          split_ifs at heq with h1 h2
          · cases heq
            exact ⟨h1, by simpa using h2⟩
      · rw [if_neg hcol] at hx3; simp at hx3
  rw [← hfst]
  refine ⟨hmain.1, hmain.2, ?_⟩
  intro kp hkp
  have := hmain.2
  unfold isKingThreatened at this
  rw [hkp] at this
  exact this

/-- A board holding only the two kings: white on a1 (7,0), black on h8 (0,7). -/
def twoKingsBoard : Board :=
  { squares := ((List.replicate 8 (List.replicate 8 (none : Option Piece))).set 7
      ((List.replicate 8 (none : Option Piece)).set 0 (some ⟨.king, .white⟩))).set 0
      ((List.replicate 8 (none : Option Piece)).set 7 (some ⟨.king, .black⟩))
  , selected_square := none
  , current_turn := .white }

set_option maxRecDepth 400000 in
/-- Witness for C3 at a concrete input: the white king step (7,0) → (6,0) is
among the ranked moves of the two-kings position and leaves the white king
unthreatened. -/
theorem claim_C3_witness :
    (((7, 0), (6, 0)) : Move) ∈ generateRankedMoves twoKingsBoard .white
    ∧ ((movePiece twoKingsBoard (7, 0) (6, 0)).1 = true
        ∧ isKingThreatened (movePiece twoKingsBoard (7, 0) (6, 0)).2 .white = false
        ∧ ∀ kp, findKing (movePiece twoKingsBoard (7, 0) (6, 0)).2 .white = some kp
            → (analyzeBoard (movePiece twoKingsBoard (7, 0) (6, 0)).2
                Color.white.opposite).controlledSquares kp = false) :=
  ⟨by with_unfolding_all decide,
    claim_C3_no_self_check twoKingsBoard .white ((7, 0), (6, 0))
      (by with_unfolding_all decide)⟩

/-! ## Claim C9 -/

/-- The `visits` field of a constructed node. -/
theorem MCTSNode.visits_mk (b : Board) (v : Nat) (tv : Rat)
    (ch : List (Move × MCTSNode)) (un : List Move) (cp : Color) :
    (MCTSNode.mk b v tv ch un cp).visits = v := rfl

/-- The `children` field of a constructed node. -/
theorem MCTSNode.children_mk (b : Board) (v : Nat) (tv : Rat)
    (ch : List (Move × MCTSNode)) (un : List Move) (cp : Color) :
    (MCTSNode.mk b v tv ch un cp).children = ch := rfl

/-- Each `mcts_iteration` call increments the node's own visit count by
exactly one, in every branch. -/
theorem mctsIteration_visits (sch : Scheduler) (node : MCTSNode) :
    (mctsIteration sch node).1.visits = node.visits + 1 := by
  induction node using mctsIteration.induct sch with
  | case1 x h i nextMove r hr =>
    rw [mctsIteration]
    rw [if_pos h]
    rw [if_pos hr]
    exact MCTSNode.visits_mk _ _ _ _ _ _
  | case2 x h i nextMove rest r hfail =>
    rename_i ih
    rw [mctsIteration]
    rw [if_pos h]
    rw [if_neg hfail]
    rw [ih, MCTSNode.visits_mk]
  | case3 x h1 h2 =>
    rw [mctsIteration]
    rw [if_neg h1]
    rw [if_pos h2]
    exact MCTSNode.visits_mk _ _ _ _ _ _
  | case4 x h1 h2 ih =>
    rw [mctsIteration]
    rw [if_neg h1]
    rw [if_neg h2]
    exact MCTSNode.visits_mk _ _ _ _ _ _

/-- An `mcts_iteration` call preserves the invariant that every attached
child has been visited at least once: children are only ever created with one
completed rollout (visits 1), and visit counts only ever increase. -/
theorem mctsIteration_children (sch : Scheduler) (node : MCTSNode) :
    (∀ ch ∈ node.children, 1 ≤ ch.2.visits) →
    ∀ ch ∈ (mctsIteration sch node).1.children, 1 ≤ ch.2.visits := by
  induction node using mctsIteration.induct sch with
  | case1 x h i nextMove r hr =>
    intro hc
    rw [mctsIteration, if_pos h, if_pos hr]
    intro ch hch
    rw [MCTSNode.children_mk] at hch
    rcases List.mem_append.mp hch with h1 | h1
    · exact hc ch h1
    · rcases List.mem_singleton.mp h1 with rfl
      exact le_refl 1
  | case2 x h i nextMove rest r hfail =>
    rename_i ih
    intro hc
    rw [mctsIteration, if_pos h, if_neg hfail]
    exact ih (by rw [MCTSNode.children_mk]; exact hc)
  | case3 x h1 h2 =>
    intro hc
    rw [mctsIteration, if_neg h1, if_pos h2]
    intro ch hch
    rw [MCTSNode.children_mk] at hch
    exact hc ch hch
  | case4 x h1 h2 ih =>
    intro hc
    rw [mctsIteration, if_neg h1, if_neg h2]
    intro ch hch
    rw [MCTSNode.children_mk] at hch
    rcases List.mem_or_eq_of_mem_set hch with hmem | heq
    · exact hc ch hmem
    · subst heq
      have := mctsIteration_visits sch
        (x.children.getD (sch.pickChild x.children % x.children.length) default).2
      simp only [this]
      omega

/-- The child-visits invariant is preserved across any number of iterations. -/
theorem iterateMCTS_children (sch : Scheduler) (n : Nat) (node : MCTSNode)
    (hc : ∀ ch ∈ node.children, 1 ≤ ch.2.visits) :
    ∀ ch ∈ (iterateMCTS sch n node).children, 1 ≤ ch.2.visits := by
  induction n generalizing node with
  | zero => exact hc
  | succ k ih =>
    exact ih _ (mctsIteration_children sch node hc)

/-- The `max_by` fold of `get_best_move` returns an element of the list. -/
theorem visitFoldl_mem (x : Move × MCTSNode) (xs : List (Move × MCTSNode)) :
    xs.foldl (fun acc y => if acc.2.visits ≤ y.2.visits then y else acc) x ∈ x :: xs := by
  induction xs generalizing x with
  | nil => simp
  | cons y ys ih =>
    simp only [List.foldl_cons]
    have h := ih (if x.2.visits ≤ y.2.visits then y else x)
    rcases List.mem_cons.mp h with h1 | h1
    · rw [h1]
      split_ifs with hcmp
      · simp
      · simp
    · exact List.mem_cons.mpr (Or.inr (List.mem_cons.mpr (Or.inr h1)))

/-- The `max_by` fold of `get_best_move` dominates every element's visits. -/
theorem visitFoldl_max (x : Move × MCTSNode) (xs : List (Move × MCTSNode)) :
    ∀ z ∈ x :: xs, z.2.visits
      ≤ (xs.foldl (fun acc y => if acc.2.visits ≤ y.2.visits then y else acc) x).2.visits := by
  induction xs generalizing x with
  | nil => intro z hz; rcases List.mem_singleton.mp hz with rfl; exact le_refl _
  | cons y ys ih =>
    intro z hz
    simp only [List.foldl_cons]
    have hacc : x.2.visits ≤ (if x.2.visits ≤ y.2.visits then y else x).2.visits
        ∧ y.2.visits ≤ (if x.2.visits ≤ y.2.visits then y else x).2.visits := by
      split_ifs with hcmp
      · exact ⟨hcmp, le_refl _⟩
      · exact ⟨le_refl _, by omega⟩
    have hrest := ih (if x.2.visits ≤ y.2.visits then y else x)
    have haccle := hrest _ (List.mem_cons_self _ _)
    rcases List.mem_cons.mp hz with rfl | hz1
    · exact le_trans hacc.1 haccle
    · rcases List.mem_cons.mp hz1 with rfl | hz2
      · exact le_trans hacc.2 haccle
      · exact hrest _ (List.mem_cons.mpr (Or.inr hz2))

/-- C9: whenever `get_best_move` returns a move, the reported confidence lies
in [0, 1] and equals the chosen root child's visit count divided by the sum of
visit counts over all root children, the chosen child being one with maximal
visit count (the robust-child rule). -/
theorem claim_C9_confidence (sch : Scheduler) (iters : Nat) (b : Board) (c : Color)
    (m : Move) (conf : Rat)
    (h : getBestMove sch iters b c = some (m, conf)) :
    0 ≤ conf ∧ conf ≤ 1
    ∧ ∃ ch ∈ (iterateMCTS sch iters (MCTSNode.new b c)).children,
        ch.1 = m
        ∧ conf = (ch.2.visits : Rat)
            / ((((iterateMCTS sch iters (MCTSNode.new b c)).children.map
                (fun ch2 => ch2.2.visits)).sum : Nat) : Rat)
        ∧ ∀ ch2 ∈ (iterateMCTS sch iters (MCTSNode.new b c)).children,
            ch2.2.visits ≤ ch.2.visits := by
  have hinv : ∀ ch ∈ (iterateMCTS sch iters (MCTSNode.new b c)).children,
      1 ≤ ch.2.visits := by
    apply iterateMCTS_children
    intro ch hch
    simp [MCTSNode.new, MCTSNode.children_mk] at hch
  unfold getBestMove bestMoveAndConfidence at h
  cases hch : (iterateMCTS sch iters (MCTSNode.new b c)).children with
  | nil => rw [hch] at h; simp at h
  | cons x xs =>
    rw [hch] at h
    dsimp only at h
    rw [Option.some.injEq, Prod.mk.injEq] at h
    obtain ⟨hm, hconf⟩ := h
    set best := xs.foldl (fun acc y => if acc.2.visits ≤ y.2.visits then y else acc) x
      with hbest
    have hmem : best ∈ x :: xs := visitFoldl_mem x xs
    have hmax : ∀ z ∈ x :: xs, z.2.visits ≤ best.2.visits := visitFoldl_max x xs
    have h1best : 1 ≤ best.2.visits := by
      apply hinv
      rw [hch]
      exact hmem
    have hsumge : best.2.visits ≤ ((x :: xs).map (fun ch2 => ch2.2.visits)).sum := by
      apply List.single_le_sum (by intro z _; omega)
      exact List.mem_map.mpr ⟨best, hmem, rfl⟩
    have hsumpos : (0 : Nat) < ((x :: xs).map (fun ch2 => ch2.2.visits)).sum := by omega
    refine ⟨?_, ?_, best, ?_, hm, ?_, ?_⟩
    · rw [← hconf]
      positivity
    · rw [← hconf]
      rw [div_le_one (by exact_mod_cast hsumpos)]
      exact_mod_cast hsumge
    · exact hmem
    · rw [← hconf]
    · exact hmax

/-- A trivial scheduler: every oracle choice is index 0 and the evaluation
noise is 0. -/
def schZero : Scheduler := ⟨fun _ => 0, fun _ => 0, fun _ => 0, fun _ _ => 0⟩

/-- A board holding only a white rook on a8 (0,0). -/
def rookBoard : Board :=
  { squares := (List.replicate 8 (List.replicate 8 (none : Option Piece))).set 0
      ((List.replicate 8 (none : Option Piece)).set 0 (some ⟨.rook, .white⟩))
  , selected_square := none
  , current_turn := .white }

set_option maxRecDepth 1000000 in
/-- Witness for C9 at a concrete input: two iterations on the lone-rook board
return the rook's first ranked move with confidence 1 = 1/1, the single root
child holding all the visits. -/
theorem claim_C9_witness :
    getBestMove schZero 2 rookBoard .white = some ((((0, 0), (0, 1)) : Move), (1 : Rat))
    ∧ (0 ≤ (1 : Rat) ∧ (1 : Rat) ≤ 1
      ∧ ∃ ch ∈ (iterateMCTS schZero 2 (MCTSNode.new rookBoard .white)).children,
          ch.1 = (((0, 0), (0, 1)) : Move)
          ∧ (1 : Rat) = (ch.2.visits : Rat)
              / ((((iterateMCTS schZero 2 (MCTSNode.new rookBoard .white)).children.map
                  (fun ch2 => ch2.2.visits)).sum : Nat) : Rat)
          ∧ ∀ ch2 ∈ (iterateMCTS schZero 2 (MCTSNode.new rookBoard .white)).children,
              ch2.2.visits ≤ ch.2.visits) :=
  ⟨by with_unfolding_all decide,
    claim_C9_confidence schZero 2 rookBoard .white ((0, 0), (0, 1)) 1
      (by with_unfolding_all decide)⟩

/-! ## Claims C6, C7 -/

/-- The `total_value` field of a constructed node. -/
theorem MCTSNode.total_value_mk (b : Board) (v : Nat) (tv : Rat)
    (ch : List (Move × MCTSNode)) (un : List Move) (cp : Color) :
    (MCTSNode.mk b v tv ch un cp).total_value = tv := rfl

/-- The unexplored move drawn by `mcts_iteration`'s
`gen_range(0..len)` / `remove(move_index)` pair. -/
def pickedMove (sch : Scheduler) (node : MCTSNode) : Move :=
  node.unexplored_moves.getD
    (sch.pickUnexplored node.unexplored_moves % node.unexplored_moves.length) ((0, 0), (0, 0))

/-- The result of applying the picked move to a clone of the node's board. -/
def pickedApply (sch : Scheduler) (node : MCTSNode) : Bool × Board :=
  movePiece node.board (pickedMove sch node).1 (pickedMove sch node).2

/-- The node after `unexplored_moves.remove(move_index)`: identical except
that the picked move is gone from the queue. -/
def dropPicked (sch : Scheduler) (node : MCTSNode) : MCTSNode :=
  .mk node.board node.visits node.total_value node.children
    (node.unexplored_moves.eraseIdx
      (sch.pickUnexplored node.unexplored_moves % node.unexplored_moves.length))
    node.current_player

/-- The signed rollout value `value = -simulate(child, depth)` stored at a
successfully expanded child. -/
def expandValue (sch : Scheduler) (node : MCTSNode) : Rat :=
  -(simulate sch (pickedApply sch node).2 node.current_player.opposite MAX_PLIES)

/-- The child picked by the selection step (the UCT `max_by`, oracle-modelled). -/
def selectedChild (sch : Scheduler) (node : MCTSNode) : Move × MCTSNode :=
  node.children.getD (sch.pickChild node.children % node.children.length) default

/-- `ExpandPath sch node k v`: running one `mcts_iteration` from `node`
reaches an expansion `k` selection-steps below, whose new child stores the
signed rollout value `v`.  `retryStep` covers the source's silent retry after
a failed move application (same node, picked move removed, same depth). -/
inductive ExpandPath (sch : Scheduler) : MCTSNode → Nat → Rat → Prop where
  | expandHere (node : MCTSNode)
      (hcond : 0 < node.visits ∧ node.unexplored_moves ≠ [])
      (happ : (pickedApply sch node).1 = true) :
      ExpandPath sch node 0 (expandValue sch node)
  | retryStep (node : MCTSNode) (k : Nat) (v : Rat)
      (hcond : 0 < node.visits ∧ node.unexplored_moves ≠ [])
      (hfail : (pickedApply sch node).1 = false)
      (hrec : ExpandPath sch (dropPicked sch node) k v) :
      ExpandPath sch node k v
  | descendStep (node : MCTSNode) (k : Nat) (v : Rat)
      (hcond : ¬(0 < node.visits ∧ node.unexplored_moves ≠ []))
      (hne : node.children.isEmpty = false)
      (hrec : ExpandPath sch (selectedChild sch node).2 k v) :
      ExpandPath sch node (k + 1) v

/-- C6 amended: when an iteration expands a child with signed rollout value
`v` at depth `k` below a node, the new child's value and visit count are set
to `v` and 1, and the node — an ancestor `k` selection-levels above the
expanding node — has its visit count incremented by 1 and its cumulative
value incremented by `(-1)^k·v`.  In particular the expanding node itself
(`k = 0`, the new child's immediate parent) receives `+v`, the **same** value
stored at the child, not its negation; alternation starts at the
grandparent. -/
theorem claim_C6_backprop (sch : Scheduler) (node : MCTSNode) (k : Nat) (v : Rat)
    (h : ExpandPath sch node k v) :
    (mctsIteration sch node).2 = (-1 : Rat) ^ k * v
    ∧ (mctsIteration sch node).1.visits = node.visits + 1
    ∧ (mctsIteration sch node).1.total_value = node.total_value + (-1 : Rat) ^ k * v
    ∧ (k = 0 → ∃ mv childNode,
        (mctsIteration sch node).1.children = node.children ++ [(mv, childNode)]
        ∧ childNode.visits = 1 ∧ childNode.total_value = v) := by
  induction h with
  | expandHere node hcond happ =>
    have happ' : (movePiece node.board (pickedMove sch node).1 (pickedMove sch node).2).1
        = true := happ
    rw [mctsIteration, if_pos hcond]
    dsimp only
    rw [if_pos (by simpa [pickedMove] using happ')]
    refine ⟨?_, ?_, ?_, ?_⟩
    · simp [expandValue, pickedApply, pickedMove]
    · simp [MCTSNode.visits_mk]
    · simp [MCTSNode.total_value_mk, expandValue, pickedApply, pickedMove]
    · intro _
      exact ⟨_, _, rfl, rfl, rfl⟩
  | retryStep node k v hcond hfail hrec ih =>
    have hfail' : ¬ ((movePiece node.board (pickedMove sch node).1
        (pickedMove sch node).2).1 = true) := by
      rw [show (movePiece node.board (pickedMove sch node).1 (pickedMove sch node).2)
          = pickedApply sch node from rfl, hfail]
      simp
    rw [mctsIteration, if_pos hcond]
    dsimp only
    rw [if_neg (by simpa [pickedMove] using hfail')]
    simpa [dropPicked, MCTSNode.visits_mk, MCTSNode.total_value_mk,
      MCTSNode.children_mk] using ih
  | descendStep node k v hcond hne hrec ih =>
    rw [mctsIteration, if_neg hcond]
    rw [if_neg (by simp [hne])]
    dsimp only
    have ih' := ih
    simp only [selectedChild] at ih'
    refine ⟨?_, ?_, ?_, ?_⟩
    · rw [ih'.1]
      ring
    · simp [MCTSNode.visits_mk]
    · rw [MCTSNode.total_value_mk, ih'.1]
      ring
    · intro hk
      exact absurd hk (Nat.succ_ne_zero k)


/-- The expansion branch of `mcts_iteration` as an equation: on a visited node
with unexplored moves whose picked move applies, the call returns the node
with the new child appended — the child carrying the signed rollout value and
one visit — the picked move dropped from the queue, and the node's own
counters bumped by that same value, which is also the returned value. -/
theorem mctsIteration_expand_eq (sch : Scheduler) (node : MCTSNode)
    (hcond : 0 < node.visits ∧ node.unexplored_moves ≠ [])
    (happ : (pickedApply sch node).1 = true) :
    mctsIteration sch node
      = (.mk node.board (node.visits + 1) (node.total_value + expandValue sch node)
          (node.children ++ [(pickedMove sch node,
            .mk (pickedApply sch node).2 1 (expandValue sch node) []
              (generateRankedMoves (pickedApply sch node).2 node.current_player.opposite)
              node.current_player.opposite)])
          (node.unexplored_moves.eraseIdx
            (sch.pickUnexplored node.unexplored_moves % node.unexplored_moves.length))
          node.current_player,
        expandValue sch node) := by
  have happ' : (movePiece node.board (pickedMove sch node).1 (pickedMove sch node).2).1
      = true := happ
  rw [mctsIteration, if_pos hcond]
  dsimp only
  rw [if_pos (by simpa [pickedMove] using happ')]
  rfl

/-- The retry behavior of `mcts_iteration` as an equation: a failing picked
move is silently dropped and the iteration reruns on the same node. -/
theorem mctsIteration_retry_eq (sch : Scheduler) (node : MCTSNode)
    (hcond : 0 < node.visits ∧ node.unexplored_moves ≠ [])
    (hfail : (pickedApply sch node).1 = false) :
    mctsIteration sch node = mctsIteration sch (dropPicked sch node) := by
  have hfail' : ¬ ((movePiece node.board (pickedMove sch node).1
      (pickedMove sch node).2).1 = true) := by
    rw [show (movePiece node.board (pickedMove sch node).1 (pickedMove sch node).2)
        = pickedApply sch node from rfl, hfail]
    simp
  rw [mctsIteration, if_pos hcond]
  dsimp only
  rw [if_neg (by simpa [pickedMove] using hfail')]
  rfl

/-- The leaf branch of `mcts_iteration` as an equation: a childless node that
is not in the expansion branch is evaluated directly. -/
theorem mctsIteration_leaf_eq (sch : Scheduler) (node : MCTSNode)
    (hcond : ¬(0 < node.visits ∧ node.unexplored_moves ≠ []))
    (hemp : node.children.isEmpty = true) :
    mctsIteration sch node
      = (.mk node.board (node.visits + 1)
          (node.total_value + evaluatePosition sch node.board node.current_player)
          node.children node.unexplored_moves node.current_player,
        evaluatePosition sch node.board node.current_player) := by
  rw [mctsIteration, if_neg hcond, if_pos hemp]

/-- A rollout from a position whose side to move has no ranked moves
evaluates the position immediately. -/
theorem simulate_no_moves (sch : Scheduler) (b : Board) (p : Color) (d : Nat)
    (h : generateRankedMoves b p = []) :
    simulate sch b p d = evaluatePosition sch b p := by
  cases d with
  | zero => rfl
  | succ k =>
    rw [simulate, if_pos h]

/-- `evaluate_position`'s deterministic component in terms of the six
analysis quantities it reads. -/
theorem evaluatePositionDet_eq (b : Board) (c : Color) (M : Int)
    (KS KS2 : Rat) (MB TH : Nat) (CC : Rat)
    (h1 : (analyzeBoard b c).materialBalance = M)
    (h2 : (analyzeBoard b c).kingSafety = KS)
    (h3 : (analyzeBoard b c.opposite).kingSafety = KS2)
    (h4 : ((analyzeBoard b c).pieceMobility.map (fun pm => pm.2.length)).sum = MB)
    (h5 : (analyzeBoard b c).threats.length = TH)
    (h6 : (analyzeBoard b c).centerControl = CC) :
    evaluatePositionDet b c
      = (M : Rat) + KS * 3 - KS2 * (5 / 2) + (MB : Rat) * (1 / 10)
        - (TH : Rat) * 2 + CC * (3 / 2) := by
  unfold evaluatePositionDet
  dsimp only
  rw [h1, h2, h3, h4, h5, h6]

/-- A board holding only a white king on e4; the one-move node about to
expand it, a root whose only child is that node, and a node queued with a
move from an empty square. -/
def kingNodeBoard : Board :=
  { squares := (List.replicate 8 (List.replicate 8 (none : Option Piece))).set 4
      ((List.replicate 8 (none : Option Piece)).set 4 (some ⟨.king, .white⟩))
  , selected_square := none
  , current_turn := .white }

/-- A node about to expand: the lone king with one unexplored move. -/
def expandNode : MCTSNode := .mk kingNodeBoard 1 0 [] [((4, 4), (4, 5))] .white

/-- A root whose only child is `expandNode`, so an iteration descends once
and then expands. -/
def mctsRoot : MCTSNode := .mk kingNodeBoard 1 0 [(((4, 4), (4, 5)), expandNode)] [] .white

/-- The signed rollout value stored when `expandNode` expands: the king step
leaves black with no moves, so the rollout immediately evaluates the
position from black's perspective and the sign flip makes it 199987/10. -/
theorem expandValue_expandNode :
    expandValue schZero expandNode = (199987 / 10 : Rat) := by
  have hmoves : generateRankedMoves (pickedApply schZero expandNode).2 Color.black = [] := by
    with_unfolding_all decide
  have hdet : evaluatePositionDet (pickedApply schZero expandNode).2 Color.black
      = -(199987 / 10 : Rat) := by
    rw [evaluatePositionDet_eq (pickedApply schZero expandNode).2 Color.black
      (-20000) 0 1 8 0 2
      (by with_unfolding_all decide) (by with_unfolding_all decide)
      (by with_unfolding_all decide) (by with_unfolding_all decide)
      (by with_unfolding_all decide) (by with_unfolding_all decide)]
    norm_num
  unfold expandValue
  rw [show expandNode.current_player.opposite = Color.black from rfl,
    simulate_no_moves schZero _ Color.black MAX_PLIES hmoves]
  unfold evaluatePosition
  rw [hdet]
  norm_num [schZero]

/-- C6 counterexample: expanding `expandNode` stores v = 199987/10 at the
new child, and the immediate parent's cumulative value increases by **+v** —
not by the claimed negation −v. -/
theorem claim_C6_counterexample :
    ((mctsIteration schZero expandNode).1.children.map (fun ch => ch.2.total_value))
      = [(199987 / 10 : Rat)]
    ∧ (mctsIteration schZero expandNode).1.total_value
        = expandNode.total_value + (199987 / 10 : Rat)
    ∧ ¬ ((mctsIteration schZero expandNode).1.total_value
        = expandNode.total_value + (-(199987 / 10) : Rat)) := by
  have hexp := mctsIteration_expand_eq schZero expandNode (by decide) (by decide)
  have htv : expandNode.total_value = 0 := rfl
  refine ⟨?_, ?_, ?_⟩
  · rw [hexp]
    simp [MCTSNode.children_mk, MCTSNode.total_value_mk,
      show expandNode.children = [] from rfl, expandValue_expandNode]
  · rw [hexp, MCTSNode.total_value_mk, expandValue_expandNode]
  · rw [hexp, MCTSNode.total_value_mk, expandValue_expandNode, htv]
    norm_num

/-- Witness for C6 at a concrete input: a depth-1 path (root → child →
expansion), where the grandparent root receives the value negated once. -/
theorem claim_C6_witness :
    ExpandPath schZero mctsRoot 1 (expandValue schZero expandNode)
    ∧ ((mctsIteration schZero mctsRoot).2
          = (-1 : Rat) ^ 1 * expandValue schZero expandNode
        ∧ (mctsIteration schZero mctsRoot).1.visits = mctsRoot.visits + 1
        ∧ (mctsIteration schZero mctsRoot).1.total_value
            = mctsRoot.total_value + (-1 : Rat) ^ 1 * expandValue schZero expandNode
        ∧ ((1 : Nat) = 0 → ∃ mv childNode,
            (mctsIteration schZero mctsRoot).1.children
              = mctsRoot.children ++ [(mv, childNode)]
            ∧ childNode.visits = 1
            ∧ childNode.total_value = expandValue schZero expandNode)) := by
  have hpath : ExpandPath schZero mctsRoot 1 (expandValue schZero expandNode) := by
    apply ExpandPath.descendStep mctsRoot 0 (expandValue schZero expandNode)
    · decide
    · decide
    · show ExpandPath schZero expandNode 0 (expandValue schZero expandNode)
      apply ExpandPath.expandHere expandNode
      · decide
      · decide
  exact ⟨hpath, claim_C6_backprop schZero mctsRoot 1 (expandValue schZero expandNode) hpath⟩

/-- C7 amended: when the picked unexplored move fails to apply,
`mcts_iteration` raises no error at all — it silently retries the iteration
on the same node with the failing move already removed from the queue (so the
retries are bounded by the queue length, and no assertion or fatal error
exists on this path). -/
theorem claim_C7_silent_retry (sch : Scheduler) (node : MCTSNode)
    (hcond : 0 < node.visits ∧ node.unexplored_moves ≠ [])
    (hfail : (pickedApply sch node).1 = false) :
    mctsIteration sch node = mctsIteration sch (dropPicked sch node) :=
  mctsIteration_retry_eq sch node hcond hfail

/-- A node whose queued move starts from an empty square, so `move_piece`
rejects it. -/
def badNode : MCTSNode := .mk kingNodeBoard 1 0 [] [((5, 5), (5, 6))] .white

/-- C7 counterexample: with a failing queued move, the iteration completes
normally — it retries with the move dropped, falls through to the leaf
branch, and returns the position evaluation (200083/10) with the visit count
bumped — instead of treating the failure as a fatal internal error. -/
theorem claim_C7_counterexample :
    (movePiece badNode.board (5, 5) (5, 6)).1 = false
    ∧ mctsIteration schZero badNode = mctsIteration schZero (dropPicked schZero badNode)
    ∧ (mctsIteration schZero badNode).1.visits = 2
    ∧ (mctsIteration schZero badNode).1.children.isEmpty = true
    ∧ (mctsIteration schZero badNode).2 = (200083 / 10 : Rat) := by
  have hret := mctsIteration_retry_eq schZero badNode (by decide) (by decide)
  have hleaf := mctsIteration_leaf_eq schZero (dropPicked schZero badNode)
    (by decide) (by decide)
  have hval : evaluatePosition schZero (dropPicked schZero badNode).board
      (dropPicked schZero badNode).current_player = (200083 / 10 : Rat) := by
    have hdet : evaluatePositionDet kingNodeBoard Color.white = (200083 / 10 : Rat) := by
      rw [evaluatePositionDet_eq kingNodeBoard Color.white 20000 1 0 8 0 3
        (by with_unfolding_all decide) (by with_unfolding_all decide)
        (by with_unfolding_all decide) (by with_unfolding_all decide)
        (by with_unfolding_all decide) (by with_unfolding_all decide)]
      norm_num
    show evaluatePosition schZero kingNodeBoard Color.white = _
    unfold evaluatePosition
    rw [hdet]
    norm_num [schZero]
  refine ⟨by decide, hret, ?_, ?_, ?_⟩
  · rw [hret, hleaf, MCTSNode.visits_mk]
    rfl
  · rw [hret, hleaf]
    rfl
  · rw [hret, hleaf, hval]

/-- Witness for C7 at a concrete input: the failing-move node retries as the
amended claim states. -/
theorem claim_C7_witness :
    (0 < badNode.visits ∧ badNode.unexplored_moves ≠ [])
    ∧ (pickedApply schZero badNode).1 = false
    ∧ mctsIteration schZero badNode = mctsIteration schZero (dropPicked schZero badNode) :=
  ⟨by decide, by decide,
    claim_C7_silent_retry schZero badNode (by decide) (by decide)⟩

end ChessRL
